import Mathlib

/-!
Verification of the resource reconciliation engine of terraform-provider-athenz
(`athenz/resource_role.go`, `athenz/resource_top_level_domain.go`).

The remote ZMS service is modelled as an oracle (`ZmsClient`): one response
function per remote operation, each taking the list of calls issued so far, so
that a response may depend on earlier writes.  Each CRUD callback is embedded
as a pure function returning `Option (List Call × Data × Option RErr)`:
the issued call trace, the resulting local state, and the returned Go error
(`none` = nil).  An outer `none` models a Go runtime panic (index out of
range, nil pointer dereference), which the source can hit.
-/

namespace Athenz

/-- A structured member record (`zms.RoleMember`): identity plus optional
expiration; only the identity is used for diffing. -/
structure RoleMember where
  memberName : String
  expiration : Option Nat
  deriving DecidableEq

/-- The remote role representation (`zms.Role`), restricted to the fields the
source reads or writes: `Name`, `Modified`, `RoleMembers`, `Tags`. -/
structure Role where
  name : String
  modified : Option Nat
  roleMembers : List RoleMember
  tags : List (String × String)
  deriving DecidableEq

/-- The remote domain representation (`zms.Domain`), restricted to the fields
the source uses; `YpmId` is a nullable pointer in Go, hence `Option`. -/
structure Domain where
  name : String
  ypmId : Option Int
  deriving DecidableEq

/-- The top-level-domain draft (`zms.TopLevelDomain`) built by the create
path: name, admin users, ypm id. -/
structure TopLevelDomain where
  name : String
  adminUsers : List String
  ypmId : Int
  deriving DecidableEq

/-- A Go error value as the source distinguishes them by type switch:
`rdl.ResourceError` carries a structured code and message, everything else
(`rdl.Any`) is an opaque failure. -/
inductive GoErr where
  | resourceError (code : Int) (message : String)
  | other (message : String)
  deriving DecidableEq

/-- The error values the reconcilers return: either a facade error propagated
verbatim (`goErr`) or one of the `fmt.Errorf` wrappings of the source. -/
inductive RErr where
  | goErr (e : GoErr)
  | alreadyExists (rn dn : String)
  | retrieveRoleFailed (id : String) (code : Int) (message : String)
  | certKeyInvalid
  | updateMembershipFailed (e : GoErr)
  | updateTagsFailed (e : GoErr)
  | ambiguousCreate
  | retrieveDomainFailed (code : Int) (message : String)
  | certKeyInvalidDomain
  deriving DecidableEq

/-- One remote call issued through the client facade, with its arguments. -/
inductive Call where
  | getRole (dn rn : String)
  | putRole (dn rn auditRef : String) (role : Role)
  | deleteRole (dn rn auditRef : String)
  | deleteMembership (dn rn member auditRef : String)
  | putMembership (dn rn member auditRef : String)
  | getDomain (dn : String)
  | postTopLevelDomain (auditRef : String) (detail : TopLevelDomain)
  | deleteTopLevelDomain (dn auditRef : String)
  deriving DecidableEq

/-- The client facade as an oracle: for every operation, a response as a
function of the calls issued so far and the arguments.  Read operations
return a value-pointer (`Option`) and an error (`Option GoErr`, `none` = nil);
write operations return just the error. -/
structure ZmsClient where
  getRoleResp : List Call → String → String → Option Role × Option GoErr
  putRoleResp : List Call → String → String → String → Role → Option GoErr
  deleteRoleResp : List Call → String → String → String → Option GoErr
  deleteMembershipResp : List Call → String → String → String → String → Option GoErr
  putMembershipResp : List Call → String → String → String → String → Option GoErr
  getDomainResp : List Call → String → Option Domain × Option GoErr
  postTopLevelDomainResp : List Call → String → TopLevelDomain → Option Domain × Option GoErr
  deleteTopLevelDomainResp : List Call → String → String → Option GoErr

/-- The role resource's local state (`schema.ResourceData` restricted to the
role schema): the stored id and the schema attributes. -/
structure RoleData where
  id : String
  domain : String
  name : String
  members : List String
  audit_ref : String
  tags : List (String × String)
  deriving DecidableEq

/-- The top-level-domain resource's local state. -/
structure DomainData where
  id : String
  name : String
  admin_users : List String
  audit_ref : String
  ypm_id : Int
  deriving DecidableEq

/-- Modelled from the spec: the `ROLE_SEPARATOR` constant is not under `src/`;
per the spec the composite identifier is `<domain>:role.<role-name>`
(example `"sports:role.readers"`). -/
def ROLE_SEPARATOR : String := ":role."

/-- Modelled from the spec: `expandRoleMembers` (State Mapper, not under
`src/`) expands a flat set of member identity strings into structured
membership records with no expiration set. -/
def expandRoleMembers (members : List String) : List RoleMember :=
  members.map (fun m => { memberName := m, expiration := none })

/-- Modelled from the spec: `flattenRoleMembers` (State Mapper, not under
`src/`) flattens membership records back into the flat set of identities. -/
def flattenRoleMembers (ms : List RoleMember) : List String :=
  ms.map (fun m => m.memberName)

/-- Modelled from the spec: `expandRoleTags` (State Mapper, not under `src/`)
converts the schema tag map to the remote tag map; on the abstract key/value
map it is the identity. -/
def expandRoleTags (tags : List (String × String)) : List (String × String) :=
  tags

/-- Modelled from the spec: `flattenTag` (State Mapper, not under `src/`)
converts the remote tag map back to the schema tag map; identity on the
abstract map. -/
def flattenTag (tags : List (String × String)) : List (String × String) :=
  tags

/-- `schema.Set.Difference` (terraform-plugin-sdk, an external collaborator)
as used at `resource_role.go:151-152` on sets of member identity strings,
followed by `.List()`: the elements of `xs` that do not occur in `ys`.
The spec's Set Diff Engine specifies `remove = old − new`, `add = new − old`. -/
def setDifference (xs ys : List String) : List String :=
  xs.filter (fun x => !(ys.contains x))

/-- The membership diff of `resourceRoleUpdate` (`resource_role.go:151-152`):
`remove = old − new`, `add = new − old`, comparison by identity string. -/
def membershipDiff (os ns : List String) : List String × List String :=
  (setDifference os ns, setDifference ns os)

/-- Go `strings.Split` main loop (non-empty separator): scan left to right,
cutting at each leftmost non-overlapping occurrence of `sep`.  `fuel` is an
upper bound on the number of steps; `splitLoop` is run with the length of the
subject, which is always enough for a non-empty separator. -/
def splitLoop (sep : List Char) : Nat → List Char → List (List Char)
  | _, [] => [[]]
  | 0, c :: cs => [c :: cs]
  | fuel + 1, c :: cs =>
    if sep.isPrefixOf (c :: cs) then
      [] :: splitLoop sep fuel (List.drop sep.length (c :: cs))
    else
      match splitLoop sep fuel cs with
      | [] => [[c]]
      | r :: rs => (c :: r) :: rs

/-- Go `strings.Split(s, sep)` for a non-empty `sep`. -/
def stringsSplit (s sep : String) : List String :=
  (splitLoop sep.toList s.toList.length s.toList).map (fun l => String.mk l)

/-- The identifier decoding shared by role Read/Update/Delete
(`resource_role.go:104-105,146-147,176-177`):
`fullResourceName := strings.Split(d.Id(), ROLE_SEPARATOR)` followed by
indexing `fullResourceName[0], fullResourceName[1]`.  `none` models the Go
panic (index out of range) when the split has fewer than two components. -/
def parseRoleId (id : String) : Option (String × String) :=
  match stringsSplit id ROLE_SEPARATOR with
  | p0 :: p1 :: _ => some (p0, p1)
  | _ => none

/-- `resourceRoleRead` (`resource_role.go:101-142`). -/
def resourceRoleRead (zc : ZmsClient) (hist : List Call) (d : RoleData) :
    Option (List Call × RoleData × Option RErr) :=
  match parseRoleId d.id with
  | none => none
  | some (dn, rn) =>
    let d1 : RoleData := { d with domain := dn, name := rn }
    let t : List Call := [Call.getRole dn rn]
    match zc.getRoleResp hist dn rn with
    | (_, some (GoErr.resourceError code msg)) =>
      if code = 404 then some (t, { d1 with id := "" }, none)
      else some (t, d1, some (RErr.retrieveRoleFailed d.id code msg))
    | (_, some (GoErr.other msg)) => some (t, d1, some (RErr.goErr (GoErr.other msg)))
    | (none, none) => some (t, d1, some RErr.certKeyInvalid)
    | (some role, none) =>
      let d2 := if 0 < role.roleMembers.length then
          { d1 with members := flattenRoleMembers role.roleMembers } else d1
      let d3 := if 0 < role.tags.length then
          { d2 with tags := flattenTag role.tags } else d2
      some (t, d3, none)

/-- `resourceRoleCreate` (`resource_role.go:61-99`).  Note the source's type
switch: a structured `rdl.ResourceError` with a non-404 code falls out of the
switch without returning, so control reaches `d.SetId` and the chained read. -/
def resourceRoleCreate (zc : ZmsClient) (d : RoleData) :
    Option (List Call × RoleData × Option RErr) :=
  let dn := d.domain
  let rn := d.name
  let fullResourceName := dn ++ ROLE_SEPARATOR ++ rn
  let t0 : List Call := [Call.getRole dn rn]
  match zc.getRoleResp [] dn rn with
  | (_, some (GoErr.resourceError code _)) =>
    if code = 404 then
      let role : Role :=
        { name := fullResourceName
          modified := none
          roleMembers := if 0 < d.members.length then expandRoleMembers d.members else []
          tags := if 0 < d.tags.length then expandRoleTags d.tags else [] }
      let t1 := t0 ++ [Call.putRole dn rn d.audit_ref role]
      match zc.putRoleResp t0 dn rn d.audit_ref role with
      | some e => some (t1, d, some (RErr.goErr e))
      | none =>
        match resourceRoleRead zc t1 { d with id := fullResourceName } with
        | none => none
        | some (t2, d2, e2) => some (t1 ++ t2, d2, e2)
    else
      match resourceRoleRead zc t0 { d with id := fullResourceName } with
      | none => none
      | some (t2, d2, e2) => some (t0 ++ t2, d2, e2)
  | (_, some (GoErr.other msg)) => some (t0, d, some (RErr.goErr (GoErr.other msg)))
  | (some _, none) => some (t0, d, some (RErr.alreadyExists rn dn))
  | (none, none) => some (t0, d, none)

/-- The removal half of `updateRoleMembers`: one `DeleteMembership` call per
member, stopping at the first failure. -/
def issueRemovals (zc : ZmsClient) (dn rn auditRef : String) :
    List Call → List RoleMember → List Call × Option GoErr
  | _, [] => ([], none)
  | hist, m :: ms =>
    let c := Call.deleteMembership dn rn m.memberName auditRef
    match zc.deleteMembershipResp hist dn rn m.memberName auditRef with
    | some e => ([c], some e)
    | none =>
      let r := issueRemovals zc dn rn auditRef (hist ++ [c]) ms
      (c :: r.1, r.2)

/-- The addition half of `updateRoleMembers`: one `PutMembership` call per
member, stopping at the first failure. -/
def issueAdditions (zc : ZmsClient) (dn rn auditRef : String) :
    List Call → List RoleMember → List Call × Option GoErr
  | _, [] => ([], none)
  | hist, m :: ms =>
    let c := Call.putMembership dn rn m.memberName auditRef
    match zc.putMembershipResp hist dn rn m.memberName auditRef with
    | some e => ([c], some e)
    | none =>
      let r := issueAdditions zc dn rn auditRef (hist ++ [c]) ms
      (c :: r.1, r.2)

/-- Modelled from the spec: `updateRoleMembers` (shared helper, not under
`src/`) issues one remove call per member of `remove`, then one add call per
member of `add`, each carrying the audit reference, stopping at and surfacing
the first failing call. -/
def updateRoleMembers (zc : ZmsClient) (hist : List Call) (dn rn : String)
    (remove add : List RoleMember) (auditRef : String) : List Call × Option GoErr :=
  match issueRemovals zc dn rn auditRef hist remove with
  | (t1, some e) => (t1, some e)
  | (t1, none) =>
    let r := issueAdditions zc dn rn auditRef (hist ++ t1) add
    (t1 ++ r.1, r.2)

/-- `resourceRoleUpdate` (`resource_role.go:144-172`).  The framework-supplied
before/after member sets (`handleChange`) and the desired tag map
(`d.GetChange("tags")`) are passed in as parameters. -/
def resourceRoleUpdate (zc : ZmsClient) (d : RoleData) (membersChanged : Bool)
    (oldMembers newMembers : List String) (tagsChanged : Bool)
    (newTags : List (String × String)) : Option (List Call × RoleData × Option RErr) :=
  match parseRoleId d.id with
  | none => none
  | some (dn, rn) =>
    let auditRef := d.audit_ref
    let memberPart : List Call × Option GoErr :=
      if membersChanged then
        let remove := expandRoleMembers (membershipDiff oldMembers newMembers).1
        let add := expandRoleMembers (membershipDiff oldMembers newMembers).2
        updateRoleMembers zc [] dn rn remove add auditRef
      else ([], none)
    match memberPart with
    | (t1, some e) => some (t1, d, some (RErr.updateMembershipFailed e))
    | (t1, none) =>
      if tagsChanged then
        let t2 := t1 ++ [Call.getRole dn rn]
        match zc.getRoleResp t1 dn rn with
        | (_, some e) => some (t2, d, some (RErr.goErr e))
        | (none, none) => none
        | (some role, none) =>
          let role2 := { role with tags := expandRoleTags newTags }
          let t3 := t2 ++ [Call.putRole dn rn auditRef role2]
          match zc.putRoleResp t2 dn rn auditRef role2 with
          | some e => some (t3, d, some (RErr.updateTagsFailed e))
          | none =>
            match resourceRoleRead zc t3 d with
            | none => none
            | some (t4, d4, e4) => some (t3 ++ t4, d4, e4)
      else
        match resourceRoleRead zc t1 d with
        | none => none
        | some (t4, d4, e4) => some (t1 ++ t4, d4, e4)

/-- `resourceRoleDelete` (`resource_role.go:174-185`). -/
def resourceRoleDelete (zc : ZmsClient) (d : RoleData) :
    Option (List Call × RoleData × Option RErr) :=
  match parseRoleId d.id with
  | none => none
  | some (dn, rn) =>
    let t : List Call := [Call.deleteRole dn rn d.audit_ref]
    match zc.deleteRoleResp [] dn rn d.audit_ref with
    | some e => some (t, d, some (RErr.goErr e))
    | none => some (t, d, none)

/-- `resourceTopLevelDomainRead` (`resource_top_level_domain.go:73-107`). -/
def resourceTopLevelDomainRead (zc : ZmsClient) (hist : List Call) (d : DomainData) :
    Option (List Call × DomainData × Option RErr) :=
  let domainName := d.id
  let t0 : List Call := [Call.getDomain domainName]
  match zc.getDomainResp hist domainName with
  | (_, some (GoErr.resourceError code msg)) =>
    if code = 404 then some (t0, { d with id := "" }, none)
    else some (t0, d, some (RErr.retrieveDomainFailed code msg))
  | (_, some (GoErr.other msg)) => some (t0, d, some (RErr.goErr (GoErr.other msg)))
  | (none, none) => some (t0, d, some RErr.certKeyInvalidDomain)
  | (some tld, none) =>
    let d1 := { d with name := domainName }
    let t1 := t0 ++ [Call.getRole domainName "admin"]
    match zc.getRoleResp (hist ++ t0) domainName "admin" with
    | (_, some e) => some (t1, d1, some (RErr.goErr e))
    | (none, none) => none
    | (some adminRole, none) =>
      let d2 := { d1 with admin_users := flattenRoleMembers adminRole.roleMembers }
      match tld.ypmId with
      | none => none
      | some y => some (t1, { d2 with ypm_id := y }, none)

/-- `resourceTopLevelDomainCreate` (`resource_top_level_domain.go:51-71`).
`convertToZmsResourceNameList` (not under `src/`) is, per the spec's State
Mapper, the identity on the flat list of admin identities. -/
def resourceTopLevelDomainCreate (zc : ZmsClient) (d : DomainData) :
    Option (List Call × DomainData × Option RErr) :=
  let detail : TopLevelDomain :=
    { name := d.name, adminUsers := d.admin_users, ypmId := d.ypm_id }
  let t0 : List Call := [Call.postTopLevelDomain d.audit_ref detail]
  match zc.postTopLevelDomainResp [] d.audit_ref detail with
  | (_, some e) => some (t0, d, some (RErr.goErr e))
  | (none, none) => some (t0, d, some RErr.ambiguousCreate)
  | (some _, none) =>
    match resourceTopLevelDomainRead zc t0 { d with id := d.name } with
    | none => none
    | some (t1, d1, e1) => some (t0 ++ t1, d1, e1)

/-- Predicate: the call is a whole-role write (`PutRole`). -/
def isPutRoleCall : Call → Bool
  | Call.putRole _ _ _ _ => true
  | _ => false

/-- Predicate: the call is a per-member removal (`DeleteMembership`). -/
def isRemoveCall : Call → Bool
  | Call.deleteMembership _ _ _ _ => true
  | _ => false

/-- Predicate: the call is a per-member addition (`PutMembership`). -/
def isAddCall : Call → Bool
  | Call.putMembership _ _ _ _ => true
  | _ => false

/-- The audit reference carried by a per-member membership call. -/
def callAudit : Call → Option String
  | Call.deleteMembership _ _ _ a => some a
  | Call.putMembership _ _ _ a => some a
  | _ => none

/-- A remote role with no members and no tags, used as a concrete oracle
response. -/
def emptyRemoteRole : Role :=
  { name := "sports:role.readers", modified := none, roleMembers := [], tags := [] }

/-- A concrete remote domain value. -/
def sampleDomain : Domain :=
  { name := "homes", ypmId := some 100 }

/-- A concrete role resource state after create, id `"sports:role.readers"`. -/
def sampleRole : RoleData :=
  { id := "sports:role.readers", domain := "sports", name := "readers",
    members := ["user.bob", "user.carol"], audit_ref := "done by terraform", tags := [] }

/-- A concrete role resource state before create (no id yet). -/
def sampleNewRole : RoleData :=
  { id := "", domain := "sports", name := "readers", members := [],
    audit_ref := "done by terraform", tags := [] }

/-- A role resource state with an identifier that does not contain the role
separator at all. -/
def badIdRole : RoleData :=
  { id := "garbage", domain := "", name := "", members := [],
    audit_ref := "ref", tags := [] }

/-- Another separator-free identifier, for the amended-claim witness. -/
def singletonIdRole : RoleData :=
  { id := "x", domain := "", name := "", members := [],
    audit_ref := "ref", tags := [] }

/-- A concrete top-level-domain resource state. -/
def sampleDomainData : DomainData :=
  { id := "homes", name := "homes", admin_users := ["user.admin"],
    audit_ref := "done by terraform", ypm_id := 100 }

/-- An oracle whose reads all fail with a structured 404. -/
def notFoundClient : ZmsClient :=
  { getRoleResp := fun _ _ _ => (none, some (GoErr.resourceError 404 "role not found"))
    putRoleResp := fun _ _ _ _ _ => none
    deleteRoleResp := fun _ _ _ _ => none
    deleteMembershipResp := fun _ _ _ _ _ => none
    putMembershipResp := fun _ _ _ _ _ => none
    getDomainResp := fun _ _ => (none, some (GoErr.resourceError 404 "domain not found"))
    postTopLevelDomainResp := fun _ _ _ => (none, none)
    deleteTopLevelDomainResp := fun _ _ _ => none }

/-- An oracle whose reads all fail with a structured 401. -/
def err401Client : ZmsClient :=
  { getRoleResp := fun _ _ _ => (none, some (GoErr.resourceError 401 "unauthorized"))
    putRoleResp := fun _ _ _ _ _ => none
    deleteRoleResp := fun _ _ _ _ => none
    deleteMembershipResp := fun _ _ _ _ _ => none
    putMembershipResp := fun _ _ _ _ _ => none
    getDomainResp := fun _ _ => (none, some (GoErr.resourceError 401 "unauthorized"))
    postTopLevelDomainResp := fun _ _ _ => (none, none)
    deleteTopLevelDomainResp := fun _ _ _ => none }

/-- An oracle for which every operation succeeds; role reads return
`emptyRemoteRole`. -/
def okClient : ZmsClient :=
  { getRoleResp := fun _ _ _ => (some emptyRemoteRole, none)
    putRoleResp := fun _ _ _ _ _ => none
    deleteRoleResp := fun _ _ _ _ => none
    deleteMembershipResp := fun _ _ _ _ _ => none
    putMembershipResp := fun _ _ _ _ _ => none
    getDomainResp := fun _ _ => (some sampleDomain, none)
    postTopLevelDomainResp := fun _ _ _ => (some sampleDomain, none)
    deleteTopLevelDomainResp := fun _ _ _ => none }

/-- An oracle whose domain create returns neither a value nor an error. -/
def nilPostClient : ZmsClient :=
  { getRoleResp := fun _ _ _ => (some emptyRemoteRole, none)
    putRoleResp := fun _ _ _ _ _ => none
    deleteRoleResp := fun _ _ _ _ => none
    deleteMembershipResp := fun _ _ _ _ _ => none
    putMembershipResp := fun _ _ _ _ _ => none
    getDomainResp := fun _ _ => (some sampleDomain, none)
    postTopLevelDomainResp := fun _ _ _ => (none, none)
    deleteTopLevelDomainResp := fun _ _ _ => none }

/-- An oracle for the full create flow: the role is absent (404) until the
first call has been issued, and present afterwards; writes succeed. -/
def createFlowClient : ZmsClient :=
  { getRoleResp := fun h _ _ =>
      match h with
      | [] => (none, some (GoErr.resourceError 404 "role not found"))
      | _ :: _ => (some emptyRemoteRole, none)
    putRoleResp := fun _ _ _ _ _ => none
    deleteRoleResp := fun _ _ _ _ => none
    deleteMembershipResp := fun _ _ _ _ _ => none
    putMembershipResp := fun _ _ _ _ _ => none
    getDomainResp := fun _ _ => (some sampleDomain, none)
    postTopLevelDomainResp := fun _ _ _ => (some sampleDomain, none)
    deleteTopLevelDomainResp := fun _ _ _ => none }

/-- The whole-role value written by the tag-replacement scenario: the
re-fetched `emptyRemoteRole` with its tag map replaced wholesale. -/
def tagUpdatedRole : Role :=
  { name := "sports:role.readers", modified := none, roleMembers := [],
    tags := [("env", "staging"), ("owner", "team-x")] }

/-- The call trace of the tag-replacement scenario. -/
def tagScenarioTrace : List Call :=
  [Call.getRole "sports" "readers",
    Call.putRole "sports" "readers" "done by terraform" tagUpdatedRole,
    Call.getRole "sports" "readers"]

/-- Elements of `setDifference xs ys`, as a finite set, are exactly the
elements of `xs` minus those of `ys`. -/
theorem setDifference_toFinset (xs ys : List String) :
    (setDifference xs ys).toFinset = xs.toFinset \ ys.toFinset := by
  ext a
  simp [setDifference, List.mem_filter]

/-- C1: for every pair of finite before/after member sets, the membership
diff of Role Update yields `remove = O \ N` and `add = N \ O`; the two are
disjoint and `(O \ remove) ∪ add = N`.  Elements are compared as identity
strings. -/
theorem membershipDiff_correct (os ns : List String) :
    (membershipDiff os ns).1.toFinset = os.toFinset \ ns.toFinset ∧
    (membershipDiff os ns).2.toFinset = ns.toFinset \ os.toFinset ∧
    Disjoint (membershipDiff os ns).1.toFinset (membershipDiff os ns).2.toFinset ∧
    (os.toFinset \ (membershipDiff os ns).1.toFinset) ∪ (membershipDiff os ns).2.toFinset
      = ns.toFinset := by
  refine ⟨setDifference_toFinset os ns, setDifference_toFinset ns os, ?_, ?_⟩
  · rw [membershipDiff]
    simp only [setDifference_toFinset]
    exact disjoint_sdiff_sdiff
  · rw [membershipDiff]
    simp only [setDifference_toFinset]
    ext a
    simp only [Finset.mem_union, Finset.mem_sdiff, List.mem_toFinset]
    tauto

/-- C2: a structured 404 on the remote fetch makes both Role Read and
Top-Level Domain Read clear the stored identifier and return nil. -/
theorem read_notFound_clears_state (zc : ZmsClient) (dR : RoleData) (dD : DomainData)
    (dn rn : String) (x : Option Role) (y : Option Domain) (m1 m2 : String)
    (hp : parseRoleId dR.id = some (dn, rn))
    (hr : zc.getRoleResp [] dn rn = (x, some (GoErr.resourceError 404 m1)))
    (hd : zc.getDomainResp [] dD.id = (y, some (GoErr.resourceError 404 m2))) :
    resourceRoleRead zc [] dR =
      some ([Call.getRole dn rn], { dR with domain := dn, name := rn, id := "" }, none) ∧
    resourceTopLevelDomainRead zc [] dD =
      some ([Call.getDomain dD.id], { dD with id := "" }, none) := by
  constructor
  · simp [resourceRoleRead, hp, hr]
  · simp [resourceTopLevelDomainRead, hd]

/-- C2 witness: against an oracle answering 404, the reads on concrete
states clear the identifier and return no error. -/
theorem read_notFound_clears_state_witness :
    resourceRoleRead notFoundClient [] sampleRole =
      some ([Call.getRole "sports" "readers"],
        { sampleRole with domain := "sports", name := "readers", id := "" }, none) ∧
    resourceTopLevelDomainRead notFoundClient [] sampleDomainData =
      some ([Call.getDomain "homes"], { sampleDomainData with id := "" }, none) :=
  read_notFound_clears_state notFoundClient sampleRole sampleDomainData
    "sports" "readers" none none "role not found" "domain not found"
    (by decide) rfl rfl

/-- C3: when the create precheck succeeds with a non-nil role, Create
returns the "already exists, use terraform import" error; its trace is the
single precheck read (no `PutRole`), and the local state — in particular the
identifier — is unchanged. -/
theorem roleCreate_rejects_existing (zc : ZmsClient) (d : RoleData) (r : Role)
    (h : zc.getRoleResp [] d.domain d.name = (some r, none)) :
    resourceRoleCreate zc d =
      some ([Call.getRole d.domain d.name], d, some (RErr.alreadyExists d.name d.domain)) ∧
    (∀ t d2 e, resourceRoleCreate zc d = some (t, d2, e) →
      d2.id = d.id ∧ ∀ c ∈ t, isPutRoleCall c = false) := by
  have h1 : resourceRoleCreate zc d =
      some ([Call.getRole d.domain d.name], d, some (RErr.alreadyExists d.name d.domain)) := by
    rw [resourceRoleCreate]
    rw [h]
  refine ⟨h1, ?_⟩
  intro t d2 e ht
  rw [h1] at ht
  simp only [Option.some.injEq, Prod.mk.injEq] at ht
  obtain ⟨ht1, ht2, _⟩ := ht
  subst ht1
  subst ht2
  refine ⟨rfl, ?_⟩
  intro c hc
  simp only [List.mem_singleton] at hc
  subst hc
  rfl

/-- C3 witness: against an oracle on which the role already exists, Create on
a concrete state returns the already-exists error without a write. -/
theorem roleCreate_rejects_existing_witness :
    resourceRoleCreate okClient sampleNewRole =
      some ([Call.getRole "sports" "readers"], sampleNewRole,
        some (RErr.alreadyExists "readers" "sports")) :=
  (roleCreate_rejects_existing okClient sampleNewRole emptyRemoteRole rfl).1

/-- C4: the code slip at `resource_role.go:68-95`: when the create precheck
fails with a structured error whose code is not 404 (here 401), the type
switch falls through without returning, so Create does NOT abort: it issues
no write, but it sets the resource identifier to the composite name and runs
the chained Read, returning Read's wrapped error instead of the precheck
failure.  This theorem evaluates the embedded Create at that failing input,
exhibiting the identifier being set. -/
theorem roleCreate_swallows_non404_precheck_error :
    resourceRoleCreate err401Client sampleNewRole =
      some ([Call.getRole "sports" "readers", Call.getRole "sports" "readers"],
        { sampleNewRole with id := "sports:role.readers" },
        some (RErr.retrieveRoleFailed "sports:role.readers" 401 "unauthorized")) ∧
    ({ sampleNewRole with id := "sports:role.readers" } : RoleData).id ≠ "" := by
  constructor
  · rfl
  · decide

/-- C8: when the create-domain call returns a nil domain and a nil error,
Top-Level Domain Create reports the ambiguous outcome as an error and the
identifier is not set (the state is returned unchanged). -/
theorem tldCreate_ambiguous_reported (zc : ZmsClient) (d : DomainData)
    (h : zc.postTopLevelDomainResp [] d.audit_ref
        { name := d.name, adminUsers := d.admin_users, ypmId := d.ypm_id } = (none, none)) :
    resourceTopLevelDomainCreate zc d =
      some ([Call.postTopLevelDomain d.audit_ref
        { name := d.name, adminUsers := d.admin_users, ypmId := d.ypm_id }],
        d, some RErr.ambiguousCreate) := by
  rw [resourceTopLevelDomainCreate]
  rw [h]

/-- C8 witness: the ambiguous-create oracle at a concrete state. -/
theorem tldCreate_ambiguous_reported_witness :
    resourceTopLevelDomainCreate nilPostClient sampleDomainData =
      some ([Call.postTopLevelDomain "done by terraform"
        { name := "homes", adminUsers := ["user.admin"], ypmId := 100 }],
        sampleDomainData, some RErr.ambiguousCreate) :=
  tldCreate_ambiguous_reported nilPostClient sampleDomainData rfl

/-- String append on character lists. -/
theorem strToList_append (s t : String) : (s ++ t).toList = s.toList ++ t.toList :=
  String.data_append s t

/-- A list is a `isPrefixOf`-prefix of itself followed by anything. -/
theorem isPrefixOf_append_self : ∀ (a b : List Char), a.isPrefixOf (a ++ b) = true := by
  intro a b
  induction a with
  | nil => simp [List.isPrefixOf]
  | cons c cs ih => simp [List.isPrefixOf, ih]

/-- `splitLoop` on a colon-led separator leaves a colon-free subject whole. -/
theorem splitLoop_no_colon (rest : List Char) :
    ∀ (fuel : Nat) (r : List Char), r.length ≤ fuel → (∀ c ∈ r, c ≠ ':') →
      splitLoop (':' :: rest) fuel r = [r] := by
  intro fuel
  induction fuel with
  | zero =>
    intro r hr _
    cases r with
    | nil => rfl
    | cons c cs => simp at hr
  | succ n ih =>
    intro r hr hcol
    cases r with
    | nil => rfl
    | cons c cs =>
      have hc : c ≠ ':' := hcol c (by simp)
      have hbe : (':' == c) = false := beq_eq_false_iff_ne.mpr (fun h => hc h.symm)
      have hpre : (':' :: rest).isPrefixOf (c :: cs) = false := by
        simp [List.isPrefixOf, hbe]
      rw [splitLoop, hpre]
      simp only [Bool.false_eq_true, if_false]
      rw [ih cs (by simp at hr; omega) (fun a ha => hcol a (List.mem_cons_of_mem c ha))]

/-- `splitLoop` on a colon-led separator, applied to
`left ++ separator ++ right` with colon-free `left` and `right`, returns
exactly the two pieces. -/
theorem splitLoop_sandwich (rest : List Char) :
    ∀ (fuel : Nat) (l r : List Char), (∀ c ∈ l, c ≠ ':') → (∀ c ∈ r, c ≠ ':') →
      l.length + (rest.length + 1) + r.length ≤ fuel →
      splitLoop (':' :: rest) fuel ((l ++ (':' :: rest)) ++ r) = [l, r] := by
  intro fuel
  induction fuel with
  | zero =>
    intro l r _ _ hlen
    omega
  | succ n ih =>
    intro l r hl hr hlen
    cases l with
    | nil =>
      have hshape : (([] ++ (':' :: rest)) ++ r) = ':' :: (rest ++ r) := by simp
      have hpre : (':' :: rest).isPrefixOf (':' :: (rest ++ r)) = true := by
        have h0 := isPrefixOf_append_self (':' :: rest) r
        rwa [List.cons_append] at h0
      rw [hshape, splitLoop, hpre]
      rw [if_pos rfl]
      have hdrop : List.drop (':' :: rest).length (':' :: (rest ++ r)) = r := by
        simp only [List.length_cons, List.drop_succ_cons]
        exact List.drop_left rest r
      rw [hdrop, splitLoop_no_colon rest n r (by simp at hlen; omega) hr]
    | cons c l2 =>
      have hc : c ≠ ':' := hl c (by simp)
      have hbe : (':' == c) = false := beq_eq_false_iff_ne.mpr (fun h => hc h.symm)
      have hpre : (':' :: rest).isPrefixOf (c :: ((l2 ++ (':' :: rest)) ++ r)) = false := by
        simp [List.isPrefixOf, hbe]
      have hshape : (((c :: l2) ++ (':' :: rest)) ++ r) = c :: ((l2 ++ (':' :: rest)) ++ r) := by
        simp
      rw [hshape, splitLoop, hpre]
      simp only [Bool.false_eq_true, if_false]
      rw [ih l2 r (fun a ha => hl a (List.mem_cons_of_mem c ha)) hr (by simp at hlen ⊢; omega)]

/-- Go `strings.Split` undoes the separator join when neither side contains a
colon (the separator's leading character). -/
theorem stringsSplit_join (dn rn : String)
    (h1 : ∀ c ∈ dn.toList, c ≠ ':') (h2 : ∀ c ∈ rn.toList, c ≠ ':') :
    stringsSplit (dn ++ ROLE_SEPARATOR ++ rn) ROLE_SEPARATOR = [dn, rn] := by
  have hsep : ROLE_SEPARATOR.toList = ':' :: ['r', 'o', 'l', 'e', '.'] := by decide
  have happ : (dn ++ ROLE_SEPARATOR ++ rn).toList
      = (dn.toList ++ (':' :: ['r', 'o', 'l', 'e', '.'])) ++ rn.toList := by
    rw [strToList_append, strToList_append, hsep]
  rw [stringsSplit, hsep, happ]
  rw [splitLoop_sandwich ['r', 'o', 'l', 'e', '.']
    ((dn.toList ++ (':' :: ['r', 'o', 'l', 'e', '.'])) ++ rn.toList).length
    dn.toList rn.toList h1 h2 (by simp; omega)]
  simp only [List.map_cons, List.map_nil]
  rfl

/-- Parsing the composite identifier built from colon-free components yields
the original pair back. -/
theorem parseRoleId_roundTrip (dn rn : String)
    (h1 : ∀ c ∈ dn.toList, c ≠ ':') (h2 : ∀ c ∈ rn.toList, c ≠ ':') :
    parseRoleId (dn ++ ROLE_SEPARATOR ++ rn) = some (dn, rn) := by
  rw [parseRoleId, stringsSplit_join dn rn h1 h2]

/-- C7 counterexample: the claim quantifies over every domain and role name,
but for the domain name `"a:role.b"` and role name `"c"` the code's split of
the composite identifier yields `("a", "b")`, not the original pair. -/
theorem roleId_roundTrip_cex :
    parseRoleId ("a:role.b" ++ ROLE_SEPARATOR ++ "c") = some ("a", "b") ∧
    (("a", "b") : String × String) ≠ ("a:role.b", "c") := by
  constructor
  · rfl
  · decide

/-- C7 (amended): for colon-free domain and role names (all legal Athenz
names), a completed Create persists the delimiter-joined composite identifier
`domain ++ ":role." ++ name`, and parsing it back yields exactly the original
pair.  The hypotheses describe the create flow: the precheck read finds the
role absent (404), later reads find it, and the write succeeds. -/
theorem roleId_roundTrip_amended (zc : ZmsClient) (d : RoleData)
    (x : Option Role) (R : Role) (m : String)
    (hc1 : ∀ c ∈ d.domain.toList, c ≠ ':') (hc2 : ∀ c ∈ d.name.toList, c ≠ ':')
    (h404 : zc.getRoleResp [] d.domain d.name = (x, some (GoErr.resourceError 404 m)))
    (hAfter : ∀ c h, zc.getRoleResp (c :: h) d.domain d.name = (some R, none))
    (hputOK : ∀ h ro, zc.putRoleResp h d.domain d.name d.audit_ref ro = none) :
    ∀ t d2 e, resourceRoleCreate zc d = some (t, d2, e) →
      d2.id = d.domain ++ ROLE_SEPARATOR ++ d.name ∧
      parseRoleId d2.id = some (d.domain, d.name) := by
  intro t d2 e hu
  have hpr := parseRoleId_roundTrip d.domain d.name hc1 hc2
  simp only [resourceRoleCreate, h404, resourceRoleRead, hpr, hputOK,
    List.cons_append, List.nil_append, hAfter] at hu
  norm_num at hu
  obtain ⟨_, h2, _⟩ := hu
  have hid : d2.id = d.domain ++ ROLE_SEPARATOR ++ d.name := by
    rw [← h2]
    split
    · split <;> rfl
    · split <;> rfl
  exact ⟨hid, by rw [hid]; exact hpr⟩

/-- C7 witness: the create flow on domain `"sports"` and role `"readers"`
persists `"sports:role.readers"`, which parses back to the original pair. -/
theorem roleId_roundTrip_amended_witness :
    ({ sampleNewRole with id := "sports:role.readers" } : RoleData).id
      = "sports" ++ ROLE_SEPARATOR ++ "readers" ∧
    parseRoleId ({ sampleNewRole with id := "sports:role.readers" } : RoleData).id
      = some ("sports", "readers") :=
  roleId_roundTrip_amended createFlowClient sampleNewRole none emptyRemoteRole
    "role not found" (by decide) (by decide) rfl (fun _ _ => rfl) (fun _ _ => rfl)
    [Call.getRole "sports" "readers",
      Call.putRole "sports" "readers" "done by terraform" emptyRemoteRole,
      Call.getRole "sports" "readers"]
    { sampleNewRole with id := "sports:role.readers" } none rfl

/-- An identifier whose separator split has fewer than two components makes
`parseRoleId` return `none` (the Go index-out-of-range panic). -/
theorem parseRoleId_eq_none (id : String)
    (h : (stringsSplit id ROLE_SEPARATOR).length < 2) : parseRoleId id = none := by
  rw [parseRoleId]
  rcases hs : stringsSplit id ROLE_SEPARATOR with _ | ⟨a, _ | ⟨b, l⟩⟩
  · rfl
  · rfl
  · rw [hs] at h
    exfalso
    simp only [List.length_cons] at h
    omega

/-- C9 counterexample: on the identifier `"garbage"`, which does not contain
the role separator, Read, Update and Delete all crash (outcome `none`, the Go
index-out-of-range panic) instead of reporting a data-integrity error. -/
theorem roleId_bad_shape_cex :
    resourceRoleRead err401Client [] badIdRole = none ∧
    resourceRoleUpdate err401Client badIdRole true ["user.alice"] ["user.bob"] true [] = none ∧
    resourceRoleDelete err401Client badIdRole = none := by
  refine ⟨rfl, rfl, rfl⟩

/-- C9 (amended): Read, Update and Delete decode the stored identifier by
taking the first two components of the separator split; when the split has
fewer than two components, all three operations crash with an index
out-of-range panic (modelled as `none`) rather than reporting an error. -/
theorem roleId_bad_shape_crashes (zc : ZmsClient) (d : RoleData)
    (h : (stringsSplit d.id ROLE_SEPARATOR).length < 2) :
    resourceRoleRead zc [] d = none ∧
    (∀ mc om nm tc nt, resourceRoleUpdate zc d mc om nm tc nt = none) ∧
    resourceRoleDelete zc d = none := by
  have hp := parseRoleId_eq_none d.id h
  refine ⟨?_, ?_, ?_⟩
  · rw [resourceRoleRead, hp]
  · intro mc om nm tc nt
    rw [resourceRoleUpdate, hp]
  · rw [resourceRoleDelete, hp]

/-- C9 witness: a concrete separator-free identifier crashes all three
operations. -/
theorem roleId_bad_shape_crashes_witness :
    resourceRoleRead err401Client [] singletonIdRole = none ∧
    resourceRoleUpdate err401Client singletonIdRole false [] [] false [] = none ∧
    resourceRoleDelete err401Client singletonIdRole = none := by
  have h := roleId_bad_shape_crashes err401Client singletonIdRole (by decide)
  exact ⟨h.1, h.2.1 false [] [] false [], h.2.2⟩

/-- Every call issued by the removal loop is a `DeleteMembership` for the
given role with the given audit reference. -/
theorem issueRemovals_shape (zc : ZmsClient) (dn rn ar : String) :
    ∀ (ms : List RoleMember) (hist : List Call),
      ∀ c ∈ (issueRemovals zc dn rn ar hist ms).1,
        ∃ m, c = Call.deleteMembership dn rn m ar := by
  intro ms
  induction ms with
  | nil =>
    intro hist c hc
    simp [issueRemovals] at hc
  | cons m ms ih =>
    intro hist c hc
    rcases hresp : zc.deleteMembershipResp hist dn rn m.memberName ar with _ | e
    · simp only [issueRemovals, hresp] at hc
      rcases List.mem_cons.mp hc with hc | hc
      · exact ⟨m.memberName, hc⟩
      · exact ih _ c hc
    · simp only [issueRemovals, hresp, List.mem_singleton] at hc
      exact ⟨m.memberName, hc⟩

/-- Every call issued by the addition loop is a `PutMembership` for the
given role with the given audit reference. -/
theorem issueAdditions_shape (zc : ZmsClient) (dn rn ar : String) :
    ∀ (ms : List RoleMember) (hist : List Call),
      ∀ c ∈ (issueAdditions zc dn rn ar hist ms).1,
        ∃ m, c = Call.putMembership dn rn m ar := by
  intro ms
  induction ms with
  | nil =>
    intro hist c hc
    simp [issueAdditions] at hc
  | cons m ms ih =>
    intro hist c hc
    rcases hresp : zc.putMembershipResp hist dn rn m.memberName ar with _ | e
    · simp only [issueAdditions, hresp] at hc
      rcases List.mem_cons.mp hc with hc | hc
      · exact ⟨m.memberName, hc⟩
      · exact ih _ c hc
    · simp only [issueAdditions, hresp, List.mem_singleton] at hc
      exact ⟨m.memberName, hc⟩

/-- The trace of `updateRoleMembers` decomposes as a block of removal calls
followed by a block of addition calls. -/
theorem updateRoleMembers_decomp (zc : ZmsClient) (hist : List Call) (dn rn ar : String)
    (rem add : List RoleMember) :
    ∃ t1 t2, (updateRoleMembers zc hist dn rn rem add ar).1 = t1 ++ t2 ∧
      (∀ c ∈ t1, ∃ m, c = Call.deleteMembership dn rn m ar) ∧
      (∀ c ∈ t2, ∃ m, c = Call.putMembership dn rn m ar) := by
  rcases hir : issueRemovals zc dn rn ar hist rem with ⟨t1, e1⟩
  have ht1 : ∀ c ∈ t1, ∃ m, c = Call.deleteMembership dn rn m ar := by
    intro c hc
    exact issueRemovals_shape zc dn rn ar rem hist c (by rw [hir]; exact hc)
  cases e1 with
  | some e =>
    refine ⟨t1, [], ?_, ht1, by simp⟩
    rw [updateRoleMembers, hir]
    simp
  | none =>
    refine ⟨t1, (issueAdditions zc dn rn ar (hist ++ t1) add).1, ?_, ht1, ?_⟩
    · rw [updateRoleMembers, hir]
    · intro c hc
      exact issueAdditions_shape zc dn rn ar add (hist ++ t1) c hc

/-- Every call in the trace of a completed Role Read is a `GetRole`. -/
theorem resourceRoleRead_calls (zc : ZmsClient) (hist : List Call) (d : RoleData)
    (t : List Call) (d2 : RoleData) (e : Option RErr)
    (h : resourceRoleRead zc hist d = some (t, d2, e)) :
    ∀ c ∈ t, ∃ a b, c = Call.getRole a b := by
  rcases hp : parseRoleId d.id with _ | ⟨dn, rn⟩
  · simp only [resourceRoleRead, hp] at h
    cases h
  simp only [resourceRoleRead, hp] at h
  split at h <;>
    first
    | (split at h <;>
        · simp only [Option.some.injEq, Prod.mk.injEq] at h
          obtain ⟨h1, -⟩ := h
          intro c hc
          rw [← h1, List.mem_singleton] at hc
          exact ⟨dn, rn, hc⟩)
    | · simp only [Option.some.injEq, Prod.mk.injEq] at h
        obtain ⟨h1, -⟩ := h
        intro c hc
        rw [← h1, List.mem_singleton] at hc
        exact ⟨dn, rn, hc⟩

/-- In a concatenation whose first block contains no `Q`-calls and whose
second block contains no `P`-calls, every `P`-call comes strictly before
every `Q`-call. -/
theorem append_ordering (u v : List Call) (P Q : Call → Bool)
    (hu : ∀ c ∈ u, Q c = false) (hv : ∀ c ∈ v, P c = false) :
    ∀ (i j : Nat) (hi : i < (u ++ v).length) (hj : j < (u ++ v).length),
      P ((u ++ v)[i]) = true → Q ((u ++ v)[j]) = true → i < j := by
  intro i j hi hj hPi hQj
  have hiu : i < u.length := by
    by_contra hge
    push_neg at hge
    rw [List.getElem_append_right hge] at hPi
    rw [hv _ (List.getElem_mem _)] at hPi
    cases hPi
  have hju : u.length ≤ j := by
    by_contra hlt
    push_neg at hlt
    rw [List.getElem_append_left hlt] at hQj
    rw [hu _ (List.getElem_mem _)] at hQj
    cases hQj
  omega

/-- A trace of the shape removal-block ++ addition-block ++ membership-free
rest has all removals before all additions, and every membership call in it
carries the audit reference. -/
theorem ordered_of_decomp (dn rn ar : String) (t t1 t2 rest : List Call)
    (ht : t = (t1 ++ t2) ++ rest)
    (h1 : ∀ c ∈ t1, ∃ m, c = Call.deleteMembership dn rn m ar)
    (h2 : ∀ c ∈ t2, ∃ m, c = Call.putMembership dn rn m ar)
    (h3 : ∀ c ∈ rest, isRemoveCall c = false ∧ isAddCall c = false) :
    (∀ (i j : Nat) (hi : i < t.length) (hj : j < t.length),
      isRemoveCall t[i] = true → isAddCall t[j] = true → i < j) ∧
    (∀ c ∈ t, (isRemoveCall c = true ∨ isAddCall c = true) → callAudit c = some ar) := by
  subst ht
  rw [List.append_assoc]
  constructor
  · apply append_ordering
    · intro c hc
      obtain ⟨m, hm⟩ := h1 c hc
      rw [hm]
      rfl
    · intro c hc
      rcases List.mem_append.mp hc with hc | hc
      · obtain ⟨m, hm⟩ := h2 c hc
        rw [hm]
        rfl
      · exact (h3 c hc).1
  · intro c hc _
    rcases List.mem_append.mp hc with hc | hc2
    · obtain ⟨m, hm⟩ := h1 c hc
      rw [hm]
      rfl
    · rcases List.mem_append.mp hc2 with hc | hc
      · obtain ⟨m, hm⟩ := h2 c hc
        rw [hm]
        rfl
      · rename_i hPQ
        rcases hPQ with hP | hQ
        · rw [(h3 c hc).1] at hP
          cases hP
        · rw [(h3 c hc).2] at hQ
          cases hQ

/-- C5: in every completed Role Update with changed membership, every
per-member removal call is issued strictly before every per-member addition
call, and every membership call carries the audit reference. -/
theorem roleUpdate_removals_before_additions (zc : ZmsClient) (d : RoleData)
    (om nm : List String) (tc : Bool) (nt : List (String × String))
    (t : List Call) (d2 : RoleData) (e : Option RErr)
    (hu : resourceRoleUpdate zc d true om nm tc nt = some (t, d2, e)) :
    (∀ (i j : Nat) (hi : i < t.length) (hj : j < t.length),
      isRemoveCall t[i] = true → isAddCall t[j] = true → i < j) ∧
    (∀ c ∈ t, (isRemoveCall c = true ∨ isAddCall c = true) →
      callAudit c = some d.audit_ref) := by
  rcases hp : parseRoleId d.id with _ | ⟨dn, rn⟩
  · simp only [resourceRoleUpdate, hp] at hu
    cases hu
  obtain ⟨t1, t2, hsplit, hdel, hadd⟩ := updateRoleMembers_decomp zc [] dn rn d.audit_ref
    (expandRoleMembers (membershipDiff om nm).1) (expandRoleMembers (membershipDiff om nm).2)
  simp [resourceRoleUpdate, hp] at hu
  rcases hm : updateRoleMembers zc [] dn rn (expandRoleMembers (membershipDiff om nm).1)
      (expandRoleMembers (membershipDiff om nm).2) d.audit_ref with ⟨mt, me⟩
  have hsplit2 : mt = t1 ++ t2 := by
    rw [hm] at hsplit
    exact hsplit
  rcases me with _ | ge
  · -- membership phase succeeded; the tag branch and final read follow
    simp only [hm] at hu
    split at hu
    · -- tags changed
      split at hu
      · -- GetRole for tags failed: trace is mt ++ [GetRole]
        simp only [Option.some.injEq, Prod.mk.injEq] at hu
        obtain ⟨hEq, -⟩ := hu
        refine ordered_of_decomp dn rn d.audit_ref t t1 t2 [Call.getRole dn rn] ?_ hdel hadd ?_
        · rw [← hEq, hsplit2]
        · intro c hc
          rw [List.mem_singleton] at hc
          subst hc
          exact ⟨rfl, rfl⟩
      · -- GetRole returned a nil role with nil error: Go panic, no outcome
        cases hu
      · -- GetRole succeeded; split on the whole-role write
        rename_i xp role hrole
        split at hu
        · -- PutRole failed: trace is mt ++ [GetRole, PutRole]
          simp only [Option.some.injEq, Prod.mk.injEq] at hu
          obtain ⟨hEq, -⟩ := hu
          refine ordered_of_decomp dn rn d.audit_ref t t1 t2
            [Call.getRole dn rn,
              Call.putRole dn rn d.audit_ref { role with tags := expandRoleTags nt }]
            ?_ hdel hadd ?_
          · rw [← hEq, hsplit2]
          · intro c hc
            rcases List.mem_cons.mp hc with hc | hc
            · subst hc
              exact ⟨rfl, rfl⟩
            · rw [List.mem_singleton] at hc
              subst hc
              exact ⟨rfl, rfl⟩
        · -- PutRole succeeded; split on the final read
          split at hu
          · cases hu
          · rename_i t4 d4 e4 heq
            simp only [Option.some.injEq, Prod.mk.injEq] at hu
            obtain ⟨hEq, -⟩ := hu
            have ht4 : ∀ c ∈ t4, isRemoveCall c = false ∧ isAddCall c = false := by
              intro c hc
              obtain ⟨a, b, hcc⟩ := resourceRoleRead_calls zc _ d t4 d4 e4 heq c hc
              subst hcc
              exact ⟨rfl, rfl⟩
            refine ordered_of_decomp dn rn d.audit_ref t t1 t2
              (Call.getRole dn rn ::
                Call.putRole dn rn d.audit_ref { role with tags := expandRoleTags nt } :: t4)
              ?_ hdel hadd ?_
            · rw [← hEq, hsplit2]
            · intro c hc
              rcases List.mem_cons.mp hc with hc | hc
              · subst hc
                exact ⟨rfl, rfl⟩
              rcases List.mem_cons.mp hc with hc | hc
              · subst hc
                exact ⟨rfl, rfl⟩
              · exact ht4 c hc
    · -- tags unchanged: trace is mt ++ final read
      split at hu
      · cases hu
      · rename_i t4 d4 e4 heq
        simp only [Option.some.injEq, Prod.mk.injEq] at hu
        obtain ⟨hEq, -⟩ := hu
        have ht4 : ∀ c ∈ t4, isRemoveCall c = false ∧ isAddCall c = false := by
          intro c hc
          obtain ⟨a, b, hcc⟩ := resourceRoleRead_calls zc _ d t4 d4 e4 heq c hc
          subst hcc
          exact ⟨rfl, rfl⟩
        refine ordered_of_decomp dn rn d.audit_ref t t1 t2 t4 ?_ hdel hadd ht4
        rw [← hEq, hsplit2]
  · -- membership phase failed: trace is just the membership calls
    simp only [hm, Option.some.injEq, Prod.mk.injEq] at hu
    obtain ⟨hEq, -⟩ := hu
    refine ordered_of_decomp dn rn d.audit_ref t t1 t2 [] ?_ hdel hadd (by simp)
    rw [← hEq, hsplit2, List.append_nil]

/-- C5 witness: converging `⟨alice, bob⟩ → ⟨bob, carol⟩` issues the removal
of alice strictly before the addition of carol, each carrying the audit
reference. -/
theorem roleUpdate_removals_before_additions_witness :
    (0 : Nat) < 1 ∧
    callAudit (Call.deleteMembership "sports" "readers" "user.alice" "done by terraform")
      = some "done by terraform" := by
  have h := roleUpdate_removals_before_additions okClient sampleRole
    ["user.alice", "user.bob"] ["user.bob", "user.carol"] false []
    [Call.deleteMembership "sports" "readers" "user.alice" "done by terraform",
      Call.putMembership "sports" "readers" "user.carol" "done by terraform",
      Call.getRole "sports" "readers"]
    sampleRole none rfl
  refine ⟨h.1 0 1 (by decide) (by decide) (by decide) (by decide), ?_⟩
  exact h.2 _ (by decide) (Or.inl (by decide))

/-- When every removal call succeeds, the removal loop issues exactly one
`DeleteMembership` per member, in order. -/
theorem issueRemovals_success (zc : ZmsClient) (dn rn ar : String)
    (hdel : ∀ h m, zc.deleteMembershipResp h dn rn m ar = none) :
    ∀ (ms : List RoleMember) (hist : List Call),
      issueRemovals zc dn rn ar hist ms =
        (ms.map (fun m => Call.deleteMembership dn rn m.memberName ar), none) := by
  intro ms
  induction ms with
  | nil =>
    intro hist
    rfl
  | cons m ms ih =>
    intro hist
    simp only [issueRemovals, hdel, ih, List.map_cons]

/-- When every addition call succeeds, the addition loop issues exactly one
`PutMembership` per member, in order. -/
theorem issueAdditions_success (zc : ZmsClient) (dn rn ar : String)
    (hadd : ∀ h m, zc.putMembershipResp h dn rn m ar = none) :
    ∀ (ms : List RoleMember) (hist : List Call),
      issueAdditions zc dn rn ar hist ms =
        (ms.map (fun m => Call.putMembership dn rn m.memberName ar), none) := by
  intro ms
  induction ms with
  | nil =>
    intro hist
    rfl
  | cons m ms ih =>
    intro hist
    simp only [issueAdditions, hadd, ih, List.map_cons]

/-- When every membership call succeeds, `updateRoleMembers` issues the
removal calls followed by the addition calls and reports no error. -/
theorem updateRoleMembers_success (zc : ZmsClient) (dn rn ar : String)
    (hdel : ∀ h m, zc.deleteMembershipResp h dn rn m ar = none)
    (hadd : ∀ h m, zc.putMembershipResp h dn rn m ar = none)
    (rem add : List RoleMember) (hist : List Call) :
    updateRoleMembers zc hist dn rn rem add ar =
      (rem.map (fun m => Call.deleteMembership dn rn m.memberName ar) ++
        add.map (fun m => Call.putMembership dn rn m.memberName ar), none) := by
  rw [updateRoleMembers, issueRemovals_success zc dn rn ar hdel rem hist]
  simp only [issueAdditions_success zc dn rn ar hadd add]

/-- Tag convergence of Role Update: with the tags attribute changed, a
role present remotely, and membership calls succeeding, every completed
update issues exactly one whole-role write, whose role is the re-fetched
remote role with its tag map replaced by the desired one, and re-fetches the
role before writing. -/
theorem roleUpdate_tags_write (zc : ZmsClient) (d : RoleData) (mc : Bool)
    (om nm : List String) (nt : List (String × String)) (dn rn : String) (R : Role)
    (hp : parseRoleId d.id = some (dn, rn))
    (hdel : ∀ h m, zc.deleteMembershipResp h dn rn m d.audit_ref = none)
    (hadd : ∀ h m, zc.putMembershipResp h dn rn m d.audit_ref = none)
    (hrole : ∀ h, zc.getRoleResp h dn rn = (some R, none)) :
    ∀ t d2 e, resourceRoleUpdate zc d mc om nm true nt = some (t, d2, e) →
      t.filter isPutRoleCall =
        [Call.putRole dn rn d.audit_ref { R with tags := expandRoleTags nt }] ∧
      Call.getRole dn rn ∈ t := by
  intro t d2 e hu
  cases mc with
  | false =>
    simp only [resourceRoleUpdate, hp, Bool.false_eq_true, if_false, eq_self_iff_true,
      if_true, hrole] at hu
    split at hu
    · -- PutRole failed: trace is [GetRole, PutRole]
      simp only [Option.some.injEq, Prod.mk.injEq] at hu
      obtain ⟨hEq, -⟩ := hu
      constructor
      · rw [← hEq]
        simp [isPutRoleCall]
      · rw [← hEq]
        simp
    · -- PutRole succeeded, final read follows
      split at hu
      · cases hu
      · rename_i t4 d4 e4 heq
        simp only [Option.some.injEq, Prod.mk.injEq] at hu
        obtain ⟨hEq, -⟩ := hu
        have ht4F : ∀ c ∈ t4, ¬ isPutRoleCall c = true := by
          intro c hc hcontra
          obtain ⟨a, b, hcc⟩ := resourceRoleRead_calls zc _ d t4 d4 e4 heq c hc
          rw [hcc] at hcontra
          exact Bool.noConfusion hcontra
        constructor
        · rw [← hEq]
          simp [isPutRoleCall, List.filter_eq_nil_iff.mpr ht4F]
        · rw [← hEq]
          simp
  | true =>
    simp only [resourceRoleUpdate, hp, eq_self_iff_true, if_true,
      updateRoleMembers_success zc dn rn d.audit_ref hdel hadd, hrole] at hu
    have hremF : List.filter isPutRoleCall
        (List.map (fun m => Call.deleteMembership dn rn m.memberName d.audit_ref)
          (expandRoleMembers (membershipDiff om nm).1)) = [] := by
      rw [List.filter_eq_nil_iff]
      intro c hc hcontra
      obtain ⟨m, -, hm⟩ := List.mem_map.mp hc
      rw [← hm] at hcontra
      exact Bool.noConfusion hcontra
    have haddF : List.filter isPutRoleCall
        (List.map (fun m => Call.putMembership dn rn m.memberName d.audit_ref)
          (expandRoleMembers (membershipDiff om nm).2)) = [] := by
      rw [List.filter_eq_nil_iff]
      intro c hc hcontra
      obtain ⟨m, -, hm⟩ := List.mem_map.mp hc
      rw [← hm] at hcontra
      exact Bool.noConfusion hcontra
    split at hu
    · -- PutRole failed
      simp only [Option.some.injEq, Prod.mk.injEq] at hu
      obtain ⟨hEq, -⟩ := hu
      constructor
      · rw [← hEq]
        simp [isPutRoleCall, List.filter_append, hremF, haddF]
      · rw [← hEq]
        simp
    · -- PutRole succeeded, final read follows
      split at hu
      · cases hu
      · rename_i t4 d4 e4 heq
        simp only [Option.some.injEq, Prod.mk.injEq] at hu
        obtain ⟨hEq, -⟩ := hu
        have ht4F : ∀ c ∈ t4, ¬ isPutRoleCall c = true := by
          intro c hc hcontra
          obtain ⟨a, b, hcc⟩ := resourceRoleRead_calls zc _ d t4 d4 e4 heq c hc
          rw [hcc] at hcontra
          exact Bool.noConfusion hcontra
        constructor
        · rw [← hEq]
          simp [isPutRoleCall, List.filter_append, hremF, haddF,
            List.filter_eq_nil_iff.mpr ht4F]
        · rw [← hEq]
          simp

/-- C6: for every completed Role Update with the tags attribute changed (the
remote role present, membership calls succeeding), the converge step
re-fetches the current remote role and issues exactly one whole-role write
(`PutRole`) carrying the full desired tag map; no other write of the role
occurs in the trace. -/
theorem roleUpdate_tags_single_whole_role_write (zc : ZmsClient) (d : RoleData)
    (mc : Bool) (om nm : List String) (nt : List (String × String))
    (dn rn : String) (R : Role)
    (hp : parseRoleId d.id = some (dn, rn))
    (hdel : ∀ h m, zc.deleteMembershipResp h dn rn m d.audit_ref = none)
    (hadd : ∀ h m, zc.putMembershipResp h dn rn m d.audit_ref = none)
    (hrole : ∀ h, zc.getRoleResp h dn rn = (some R, none)) :
    ∀ t d2 e, resourceRoleUpdate zc d mc om nm true nt = some (t, d2, e) →
      t.filter isPutRoleCall =
        [Call.putRole dn rn d.audit_ref { R with tags := expandRoleTags nt }] ∧
      Call.getRole dn rn ∈ t :=
  roleUpdate_tags_write zc d mc om nm nt dn rn R hp hdel hadd hrole

/-- C6 witness: the tag replacement scenario `env:prod ↦ env:staging,
owner:team-x` issues exactly one whole-role write carrying the full desired
tag map, after a re-fetch. -/
theorem roleUpdate_tags_single_whole_role_write_witness :
    tagScenarioTrace.filter isPutRoleCall =
      [Call.putRole "sports" "readers" "done by terraform" tagUpdatedRole] ∧
    Call.getRole "sports" "readers" ∈ tagScenarioTrace :=
  roleUpdate_tags_single_whole_role_write okClient sampleRole false [] []
    [("env", "staging"), ("owner", "team-x")] "sports" "readers" emptyRemoteRole
    (by decide) (fun _ _ => rfl) (fun _ _ => rfl) (fun _ => rfl)
    tagScenarioTrace sampleRole none rfl

/-- C10: in every completed tag-changing Role Update (remote role present,
membership calls succeeding), every whole-role write in the trace sends
exactly the freshly re-fetched remote role with only its tag map replaced:
name, modified and the membership list equal those of the role returned by
the preceding `GetRole`. -/
theorem roleUpdate_tags_frame (zc : ZmsClient) (d : RoleData)
    (mc : Bool) (om nm : List String) (nt : List (String × String))
    (dn rn : String) (R : Role)
    (hp : parseRoleId d.id = some (dn, rn))
    (hdel : ∀ h m, zc.deleteMembershipResp h dn rn m d.audit_ref = none)
    (hadd : ∀ h m, zc.putMembershipResp h dn rn m d.audit_ref = none)
    (hrole : ∀ h, zc.getRoleResp h dn rn = (some R, none)) :
    ∀ t d2 e, resourceRoleUpdate zc d mc om nm true nt = some (t, d2, e) →
      ∀ a b ar r2, Call.putRole a b ar r2 ∈ t →
        a = dn ∧ b = rn ∧ ar = d.audit_ref ∧
        r2.name = R.name ∧ r2.modified = R.modified ∧
        r2.roleMembers = R.roleMembers ∧ r2.tags = expandRoleTags nt := by
  intro t d2 e hu a b ar r2 hmem
  obtain ⟨hf, -⟩ :=
    roleUpdate_tags_write zc d mc om nm nt dn rn R hp hdel hadd hrole t d2 e hu
  have hin : Call.putRole a b ar r2 ∈ t.filter isPutRoleCall :=
    List.mem_filter.mpr ⟨hmem, rfl⟩
  rw [hf, List.mem_singleton] at hin
  injection hin with h1 h2 h3 h4
  subst h1
  subst h2
  subst h3
  subst h4
  exact ⟨rfl, rfl, rfl, rfl, rfl, rfl, rfl⟩

/-- C10 witness: in the tag replacement scenario, the single whole-role
write sends the re-fetched role with only its tags replaced. -/
theorem roleUpdate_tags_frame_witness :
    ("sports" : String) = "sports" ∧ ("readers" : String) = "readers" ∧
    ("done by terraform" : String) = "done by terraform" ∧
    tagUpdatedRole.name = emptyRemoteRole.name ∧
    tagUpdatedRole.modified = emptyRemoteRole.modified ∧
    tagUpdatedRole.roleMembers = emptyRemoteRole.roleMembers ∧
    tagUpdatedRole.tags = [("env", "staging"), ("owner", "team-x")] :=
  roleUpdate_tags_frame okClient sampleRole false [] []
    [("env", "staging"), ("owner", "team-x")] "sports" "readers" emptyRemoteRole
    (by decide) (fun _ _ => rfl) (fun _ _ => rfl) (fun _ => rfl)
    tagScenarioTrace sampleRole none rfl
    "sports" "readers" "done by terraform" tagUpdatedRole (by decide)

end Athenz
